import Mathlib

/-
Verification of the DigitalTouch library core
(src/DigitalTouch.h and src/examples/DigitalTouch/DigitalTouch.ino).

The embedding models:
- the charge-time measurement loop of digitalTouchRead (8-bit cycle counter,
  while loop polling a digital input, counter wraparound as termination);
- the digitalTouchAverage filter (16-bit accumulator, truncating division);
- the digitalTouchMedian filter (median-of-3 decision tree);
- the calibration step of the example sketch loop (touch decision and
  snap / cool-down reference update).

Machine integers are modelled as Nat with explicit `% 2^w` where the C code
can wrap.  The digital input of one measurement is a stream
`input : Nat → Bool` giving the level read at the k-th poll of the loop
condition (1-indexed).  Raw samples produced by repeated digitalTouchRead
calls are a stream `reads : Nat → Nat`; index 0 is the first (throwaway)
sample of a filter call.
-/

namespace DigitalTouch

/--
Charge-counting loop of digitalTouchRead (src/DigitalTouch.h line 760):
  `while (!(*inputRegister & inputMask) && cycleCounter) cycleCounter++;`
`poll` is the 1-indexed number of the next loop-condition evaluation,
`counter` the current value of the uint8_t `cycleCounter`.  Each condition
evaluation first reads the input, then tests the counter (C short-circuit
order).  The result is the final counter together with the number of
`cycleCounter++` increments executed.  `fuel` bounds the recursion; with
fuel 256 the fuel-exhaustion branch is unreachable (proved below).
-/
def chargeLoop (input : Nat → Bool) : Nat → Nat → Nat → Nat × Nat
  | 0, _, counter => (counter, 0)
  | fuel+1, poll, counter =>
    if input poll then (counter, 0)
    else if counter = 0 then (counter, 0)
    else
      let r := chargeLoop input fuel (poll+1) ((counter + 1) % 256)
      (r.1, r.2 + 1)

/--
digitalTouchRead (src/DigitalTouch.h lines 668-771), GPIO side effects
abstracted away: `cycleCounter` starts at 1, the loop runs, and the function
returns `--cycleCounter`, i.e. the uint8_t decrement `(counter + 255) % 256`
(0 becomes 255 on overflow).
-/
def digitalTouchRead (input : Nat → Bool) : Nat :=
  ((chargeLoop input 256 1 1).1 + 255) % 256

/--
Accumulator of digitalTouchAverage (src/DigitalTouch.h lines 781-790):
`uint16_t value = 0;` then one ignored digitalTouchRead (index 0 of the
stream) and `value += (uint16_t)digitalTouchRead(pin)` for
`i = 0 .. samples-1`, each addition performed in uint16_t.
-/
def averageSum (reads : Nat → Nat) (samples : Nat) : Nat :=
  (List.range samples).foldl (fun acc i => (acc + reads (i + 1)) % 65536) 0

/--
digitalTouchAverage (src/DigitalTouch.h lines 779-794):
returns `(uint8_t)(value / (uint16_t)samples)`.  The C division is
undefined for `samples = 0`; the model returns `none` there.
-/
def digitalTouchAverage (reads : Nat → Nat) (samples : Nat) : Option Nat :=
  if samples = 0 then none
  else some ((averageSum reads samples / samples) % 256)

/--
Median-of-three decision tree of digitalTouchMedian
(src/DigitalTouch.h lines 814-831), with the final fall-through
`return value0`.
-/
def median3 (value0 value1 value2 : Nat) : Nat :=
  if value0 < value1 then
    if value1 < value2 then value1
    else if value0 < value2 then value2
    else value0
  else
    if value2 < value1 then value1
    else if value2 < value0 then value2
    else value0

/--
digitalTouchMedian (src/DigitalTouch.h lines 803-832): one ignored sample
(index 0), then three live samples, then the decision tree.
-/
def digitalTouchMedian (reads : Nat → Nat) : Nat :=
  median3 (reads 1) (reads 2) (reads 3)

/--
The 8-bit baseline `(uint8_t)(ref >> offset)` used throughout the example
sketch (src/examples/DigitalTouch/DigitalTouch.ino lines 113, 166).
-/
def baseline (ref offset : Nat) : Nat :=
  (ref >>> offset) % 256

/--
Touch decision of the example sketch
(src/examples/DigitalTouch/DigitalTouch.ino line 113):
  `bool touched1 = (value1 - (uint8_t)(ref1 >> offset)) > sensorThreshold;`
Both uint8_t operands undergo C integral promotion to (signed) int before
the subtraction, so the difference is the exact signed value; the model
therefore compares in Int.
-/
def touchDecision (value ref offset threshold : Nat) : Bool :=
  (value : Int) - (baseline ref offset : Int) > (threshold : Int)

/--
The touch decision as the spec describes it: the difference computed as
8-bit unsigned subtraction, wrapping modulo 256 when `value < baseline`.
Stated only to be compared against `touchDecision`; it is NOT what the
source computes.
-/
def touchDecisionWrapped (value ref offset threshold : Nat) : Bool :=
  (value + 256 - baseline ref offset) % 256 > threshold

/--
Self-calibration update of the example sketch
(src/examples/DigitalTouch/DigitalTouch.ino lines 166-169):
  `if (value1 <= (uint8_t)(ref1 >> offset)) ref1 = ((uint16_t)value1 << offset);`
  `else ref1++;`
performed on the uint16_t reference.
-/
def selfCalibrate (value ref offset : Nat) : Nat :=
  if value ≤ baseline ref offset then (value <<< offset) % 65536
  else (ref + 1) % 65536

/--
One full calibrator cycle of the sketch loop for one channel: the touch
decision (line 113) and the reference update (lines 166-169).  The update
does not depend on the decision.
-/
def evaluate (value ref offset threshold : Nat) : Bool × Nat :=
  (touchDecision value ref offset threshold, selfCalibrate value ref offset)

/--
The reference after j cycles of the sketch loop, starting at `r0`, when the
filtered sample of cycle j is `v j`.
-/
def refSeq (v : Nat → Nat) (offset r0 : Nat) : Nat → Nat
  | 0 => r0
  | j+1 => selfCalibrate (v j) (refSeq v offset r0 j) offset

/--
`m` is a middle value of the multiset {v0, v1, v2}: it is one of the three,
at least two of the three are ≤ m, and at least two are ≥ m.
-/
def IsMedian3 (m v0 v1 v2 : Nat) : Prop :=
  (m = v0 ∨ m = v1 ∨ m = v2) ∧
  ((v0 ≤ m ∧ v1 ≤ m) ∨ (v0 ≤ m ∧ v2 ≤ m) ∨ (v1 ≤ m ∧ v2 ≤ m)) ∧
  ((m ≤ v0 ∧ m ≤ v1) ∨ (m ≤ v0 ∧ m ≤ v2) ∨ (m ≤ v1 ∧ m ≤ v2))

/-! ### Helper lemmas about the charge-counting loop -/

/-- Once the counter has wrapped to 0 the loop exits immediately. -/
lemma chargeLoop_counter_zero (input : Nat → Bool) (f p : Nat) :
    chargeLoop input f p 0 = (0, 0) := by
  cases f <;> simp [chargeLoop]

/--
If the input first reads high at poll `k ≤ 255` then the loop, entered with
poll = counter = c ≤ k and enough fuel, exits with counter = k.
-/
lemma chargeLoop_first_high (input : Nat → Bool) :
    ∀ f c k, 1 ≤ c → c ≤ k → k ≤ 255 → k - c < f → input k = true →
      (∀ i, c ≤ i → i < k → input i = false) →
      (chargeLoop input f c c).1 = k := by
  intro f
  induction f with
  | zero => intro c k _ _ _ h4 _ _; omega
  | succ f ih =>
    intro c k h1 h2 h3 h4 h5 h6
    rcases eq_or_lt_of_le h2 with heq | hlt
    · subst heq
      simp [chargeLoop, h5]
    · have hc : input c = false := h6 c le_rfl hlt
      have hc0 : ¬ (c = 0) := by omega
      have hmod : (c + 1) % 256 = c + 1 := by omega
      simp only [chargeLoop, hc, hc0, hmod, if_false, if_neg, Bool.false_eq_true]
      exact ih (c + 1) k (by omega) (by omega) h3 (by omega) h5
        (fun i hi hik => h6 i (by omega) hik)

/--
If the input never reads high, the loop entered with counter `c ∈ [1,255]`
and enough fuel exits with counter 0 (uint8 wraparound).
-/
lemma chargeLoop_never_high (input : Nat → Bool) (hin : ∀ i, input i = false) :
    ∀ f c p, 1 ≤ c → c ≤ 255 → 256 - c < f →
      (chargeLoop input f p c).1 = 0 := by
  intro f
  induction f with
  | zero => intro c p _ h2 h3; omega
  | succ f ih =>
    intro c p h1 h2 h3
    have hc0 : ¬ (c = 0) := by omega
    rcases eq_or_lt_of_le h2 with heq | hlt
    · subst heq
      have hmod : (255 + 1) % 256 = 0 := by norm_num
      simp [chargeLoop, hin p, hc0, hmod, chargeLoop_counter_zero]
    · have hmod : (c + 1) % 256 = c + 1 := by omega
      simp only [chargeLoop, hin p, hc0, hmod, if_false, Bool.false_eq_true]
      exact ih (c + 1) (p + 1) (by omega) (by omega) (by omega)

/-- The loop executes at most `256 - c` increments from counter `c ∈ [1,255]`. -/
lemma chargeLoop_steps_le (input : Nat → Bool) :
    ∀ f c p, 1 ≤ c → c ≤ 255 → (chargeLoop input f p c).2 ≤ 256 - c := by
  intro f
  induction f with
  | zero => intro c p _ _; simp [chargeLoop]
  | succ f ih =>
    intro c p h1 h2
    by_cases hi : input p
    · simp [chargeLoop, hi]
    · have hc0 : ¬ (c = 0) := by omega
      rcases eq_or_lt_of_le h2 with heq | hlt
      · subst heq
        have hmod : (255 + 1) % 256 = 0 := by norm_num
        simp [chargeLoop, hi, hc0, hmod, chargeLoop_counter_zero]
      · have hmod : (c + 1) % 256 = c + 1 := by omega
        simp only [chargeLoop, hi, hc0, hmod, if_false, Bool.false_eq_true]
        have := ih (c + 1) (p + 1) (by omega) (by omega)
        omega

/-- With fuel beyond `256 - c` the loop result no longer depends on the fuel. -/
lemma chargeLoop_fuel_stable (input : Nat → Bool) :
    ∀ f g c p, 1 ≤ c → c ≤ 255 → 256 - c < f → 256 - c < g →
      chargeLoop input f p c = chargeLoop input g p c := by
  intro f
  induction f with
  | zero => intro g c p _ h2 h3 _; omega
  | succ f ih =>
    intro g c p h1 h2 h3 h4
    cases g with
    | zero => omega
    | succ g =>
      by_cases hi : input p
      · simp [chargeLoop, hi]
      · have hc0 : ¬ (c = 0) := by omega
        rcases eq_or_lt_of_le h2 with heq | hlt
        · subst heq
          have hmod : (255 + 1) % 256 = 0 := by norm_num
          simp [chargeLoop, hi, hc0, hmod, chargeLoop_counter_zero]
        · have hmod : (c + 1) % 256 = c + 1 := by omega
          simp only [chargeLoop, hi, hc0, hmod, if_false, Bool.false_eq_true]
          rw [ih g (c + 1) (p + 1) (by omega) (by omega) (by omega) (by omega)]

/-! ### Helper lemmas about the calibrator arithmetic -/

lemma baseline_eq_div (r k : Nat) : baseline r k = r / 2 ^ k % 256 := by
  simp [baseline, Nat.shiftRight_eq_div_pow]

/-- At the initial reference 0xFFFF the baseline is 255 for every offset ≤ 8. -/
lemma baseline_top (offset : Nat) (ho : offset ≤ 8) : baseline 65535 offset = 255 := by
  interval_cases offset <;> decide

/-- A baseline below 255 forces the reference below 0xFFFF. -/
lemma ref_lt_top_of_baseline (ref offset : Nat) (ho : offset ≤ 8) (hr : ref < 65536)
    (hb : baseline ref offset ≤ 254) : ref ≤ 65534 := by
  by_contra h
  have heq : ref = 65535 := by omega
  rw [heq, baseline_top offset ho] at hb
  omega

/-- Incrementing the reference cannot decrease the baseline while it is below 255. -/
lemma baseline_succ_mono (ref offset : Nat) (ho : offset ≤ 8)
    (hb : baseline ref offset ≤ 254) :
    baseline ref offset ≤ baseline (ref + 1) offset := by
  rw [baseline_eq_div] at hb ⊢
  rw [baseline_eq_div]
  interval_cases offset <;> (norm_num at hb ⊢) <;> omega

/-- The snapped reference value fits in 16 bits. -/
lemma shiftLeft_le_snap (value offset : Nat) (hv : value ≤ 255) (ho : offset ≤ 8) :
    value <<< offset ≤ 65280 := by
  rw [Nat.shiftLeft_eq]
  interval_cases offset <;> (norm_num) <;> omega

/--
The 16-bit accumulator of digitalTouchAverage never wraps for at most 255
samples of at most 255 each, and equals the plain sum of the live samples.
-/
lemma averageSum_spec (reads : Nat → Nat) (hb : ∀ i, 1 ≤ i → reads i ≤ 255) :
    ∀ n, n ≤ 255 →
      averageSum reads n = ∑ i ∈ Finset.range n, reads (i + 1) ∧
      (∑ i ∈ Finset.range n, reads (i + 1)) ≤ 255 * n := by
  intro n
  induction n with
  | zero => intro _; simp [averageSum]
  | succ n ih =>
    intro hn
    obtain ⟨h1, h2⟩ := ih (by omega)
    have hr : reads (n + 1) ≤ 255 := hb (n + 1) (by omega)
    have hfold : averageSum reads (n + 1)
        = (averageSum reads n + reads (n + 1)) % 65536 := by
      simp [averageSum, List.range_succ]
    rw [Finset.sum_range_succ]
    constructor
    · rw [hfold, h1]
      omega
    · omega

/-! ### The claims -/

/--
Claim C1, counterexample: at filteredSample = 10, reference = 0xFFFF,
offset = 4, threshold = 4 we have filteredSample < baseline = 255; the
mod-256 wrapped difference is 11 > 4, so a decision evaluated on the wrapped
unsigned 8-bit value would be true, but the decision the code computes is
false: the uint8_t operands are promoted to signed int before the
subtraction, so no wrap occurs.
-/
theorem touch_wrap_counterexample :
    10 < baseline 65535 4 ∧
    touchDecisionWrapped 10 65535 4 4 = true ∧
    touchDecision 10 65535 4 4 = false := by
  decide

/--
Claim C1, amended: in the touch decision the two uint8_t operands are
promoted to signed int, so the difference filteredSample - baseline is the
exact signed value; whenever filteredSample < baseline it is negative (it
does not wrap modulo 256), and touched = (difference > threshold) is false
for every non-negative threshold.
-/
theorem touch_signed_no_wrap (value ref offset threshold : Nat)
    (h : value < baseline ref offset) :
    (value : Int) - (baseline ref offset : Int) < 0 ∧
    touchDecision value ref offset threshold = false := by
  constructor
  · omega
  · simp only [touchDecision, gt_iff_lt, decide_eq_false_iff_not, not_lt]
    omega

theorem touch_signed_no_wrap_witness :
    ((10 : Nat) : Int) - ((baseline 65535 4 : Nat) : Int) < 0 ∧
    touchDecision 10 65535 4 4 = false :=
  touch_signed_no_wrap 10 65535 4 4 (by decide)

/--
Claim C2: one evaluate step updates the 16-bit reference exactly as
"if filteredSample ≤ (uint8)(reference >> offset) then
reference = (uint16)filteredSample << offset (snap) else
reference = reference + 1 (cool down)", with no 16-bit wraparound in either
branch, and the update does not depend on the threshold (hence not on the
touched result).
-/
theorem calibrate_update (value ref offset threshold : Nat) (hv : value ≤ 255)
    (hr : ref < 65536) (ho : offset ≤ 8) :
    (value ≤ baseline ref offset →
      (evaluate value ref offset threshold).2 = value <<< offset) ∧
    (¬ value ≤ baseline ref offset →
      (evaluate value ref offset threshold).2 = ref + 1) ∧
    (∀ t1 t2, (evaluate value ref offset t1).2 = (evaluate value ref offset t2).2) := by
  refine ⟨?_, ?_, fun t1 t2 => rfl⟩
  · intro h
    have hs := shiftLeft_le_snap value offset hv ho
    simp only [evaluate, selfCalibrate, if_pos h]
    exact Nat.mod_eq_of_lt (by omega)
  · intro h
    have hb : baseline ref offset ≤ 254 := by omega
    have hle := ref_lt_top_of_baseline ref offset ho hr hb
    simp only [evaluate, selfCalibrate, if_neg h]
    omega

theorem calibrate_update_witness :
    (evaluate 10 65535 4 4).2 = 10 <<< 4 :=
  (calibrate_update 10 65535 4 4 (by norm_num) (by norm_num) (by norm_num)).1 (by decide)

/--
Claim C3: if the floating input first reads high on the k-th poll
(1 ≤ k ≤ 255), digitalTouchRead returns exactly k - 1: the counter starts
at 1, increments once per low read, and the return value is counter - 1.
-/
theorem measure_first_high (input : Nat → Bool) (k : Nat)
    (h1 : 1 ≤ k) (h2 : k ≤ 255) (hk : input k = true)
    (hlow : ∀ i, 1 ≤ i → i < k → input i = false) :
    digitalTouchRead input = k - 1 := by
  have h := chargeLoop_first_high input 256 1 k le_rfl h1 h2 (by omega) hk hlow
  unfold digitalTouchRead
  rw [h]
  omega

theorem measure_first_high_witness :
    digitalTouchRead (fun i => decide (3 ≤ i)) = 2 := by
  have h := measure_first_high (fun i => decide (3 ≤ i)) 3 (by norm_num) (by norm_num)
    (by decide) (by intro i hi1 hi2; simp only [decide_eq_false_iff_not]; omega)
  simpa using h

/--
Claim C4: on an input that never reads high digitalTouchRead terminates by
8-bit counter wraparound and returns the saturation value 255; every
repeated call on never-high inputs returns 255 as well.
-/
theorem measure_never_high (inputs : Nat → Nat → Bool) (j : Nat)
    (hin : ∀ j2 i, inputs j2 i = false) :
    digitalTouchRead (inputs j) = 255 := by
  have h := chargeLoop_never_high (inputs j) (hin j) 256 1 1 le_rfl (by norm_num) (by norm_num)
  unfold digitalTouchRead
  rw [h]

theorem measure_never_high_witness :
    digitalTouchRead ((fun _ _ => false) 0) = 255 ∧
    digitalTouchRead ((fun _ _ => false) 1) = 255 :=
  ⟨measure_never_high (fun _ _ => false) 0 (fun _ _ => rfl),
   measure_never_high (fun _ _ => false) 1 (fun _ _ => rfl)⟩

/--
Claim C5: digitalTouchMedian returns a true middle value of its three live
samples (an element of the triple with at least two elements ≤ it and at
least two ≥ it); for any tie it returns the repeated value; and the result
does not depend on the discarded throwaway sample (index 0).
-/
theorem median_correct (reads : Nat → Nat) :
    IsMedian3 (digitalTouchMedian reads) (reads 1) (reads 2) (reads 3) ∧
    (reads 1 = reads 2 → digitalTouchMedian reads = reads 1) ∧
    (reads 2 = reads 3 → digitalTouchMedian reads = reads 2) ∧
    (reads 1 = reads 3 → digitalTouchMedian reads = reads 1) ∧
    (∀ g : Nat → Nat, (∀ i, 1 ≤ i → g i = reads i) →
      digitalTouchMedian g = digitalTouchMedian reads) := by
  refine ⟨?_, ?_, ?_, ?_, ?_⟩
  · simp only [IsMedian3, digitalTouchMedian, median3]
    split_ifs <;> omega
  · intro h; simp only [digitalTouchMedian, median3]; split_ifs <;> omega
  · intro h; simp only [digitalTouchMedian, median3]; split_ifs <;> omega
  · intro h; simp only [digitalTouchMedian, median3]; split_ifs <;> omega
  · intro g hg
    simp only [digitalTouchMedian, hg 1 (by norm_num), hg 2 (by norm_num),
      hg 3 (by norm_num)]

theorem median_correct_witness :
    digitalTouchMedian (fun i => if i ≤ 2 then 5 else 9) = 5 := by
  have h := (median_correct (fun i => if i ≤ 2 then 5 else 9)).2.1 (by norm_num)
  simpa using h

/--
Claim C6: for 1 ≤ n ≤ 255 and 8-bit raw samples, digitalTouchAverage sums
exactly the n live samples (indices 1..n of the stream, after the one
throwaway sample at index 0) in a 16-bit accumulator that never wraps
(the sum is at most 255 * 255 = 65025), and returns the truncated quotient
floor(sum / n); the result does not depend on the throwaway sample.
-/
theorem average_correct (reads : Nat → Nat) (n : Nat) (h1 : 1 ≤ n) (h2 : n ≤ 255)
    (hb : ∀ i, 1 ≤ i → reads i ≤ 255) :
    digitalTouchAverage reads n = some ((∑ i ∈ Finset.range n, reads (i + 1)) / n) ∧
    averageSum reads n = ∑ i ∈ Finset.range n, reads (i + 1) ∧
    (∑ i ∈ Finset.range n, reads (i + 1)) ≤ 65025 ∧
    (∀ g : Nat → Nat, (∀ i, 1 ≤ i → g i = reads i) →
      digitalTouchAverage g n = digitalTouchAverage reads n) := by
  obtain ⟨hsum, hle⟩ := averageSum_spec reads hb n h2
  have hquot : (∑ i ∈ Finset.range n, reads (i + 1)) / n ≤ 255 :=
    Nat.div_le_of_le_mul' (by omega)
  have hn0 : ¬ n = 0 := by omega
  refine ⟨?_, hsum, by omega, ?_⟩
  · simp only [digitalTouchAverage, if_neg hn0, hsum]
    rw [Nat.mod_eq_of_lt (by omega)]
  · intro g hg
    have hbg : ∀ i, 1 ≤ i → g i ≤ 255 := by
      intro i hi
      rw [hg i hi]
      exact hb i hi
    obtain ⟨hsg, _⟩ := averageSum_spec g hbg n h2
    have heq : (∑ i ∈ Finset.range n, g (i + 1))
        = ∑ i ∈ Finset.range n, reads (i + 1) :=
      Finset.sum_congr rfl (fun i _ => hg (i + 1) (by omega))
    simp only [digitalTouchAverage, if_neg hn0, hsg, hsum, heq]

theorem average_correct_witness :
    digitalTouchAverage (fun i => i % 100) 5
      = some ((∑ i ∈ Finset.range 5, ((i + 1) % 100)) / 5) :=
  (average_correct (fun i => i % 100) 5 (by norm_num) (by norm_num)
    (fun i _ => by show i % 100 ≤ 255; omega)).1

/--
Claim C7: for n = 0 the sample loop of digitalTouchAverage executes zero
times (the accumulator stays 0) and the final division is an unguarded
division by zero, modelled as the undefined result none; for every n ≥ 1
the division-by-zero branch is unreachable and a value is returned.
-/
theorem average_zero (reads : Nat → Nat) :
    digitalTouchAverage reads 0 = none ∧
    averageSum reads 0 = 0 ∧
    (∀ n, 1 ≤ n → (digitalTouchAverage reads n).isSome = true) := by
  refine ⟨rfl, rfl, ?_⟩
  intro n hn
  have hn0 : ¬ n = 0 := by omega
  simp [digitalTouchAverage, hn0]

theorem average_zero_witness :
    digitalTouchAverage (fun _ => 7) 0 = none ∧
    (digitalTouchAverage (fun _ => 7) 3).isSome = true :=
  ⟨(average_zero (fun _ => 7)).1, (average_zero (fun _ => 7)).2.2 3 (by norm_num)⟩

/--
Claim C8: across any run of consecutive cool-down cycles (no snap), the
reference increases by exactly 1 per cycle with no 16-bit wraparound, and
the derived 8-bit baseline is monotonically non-decreasing from each cycle
to the next.
-/
theorem cooldown_run (v : Nat → Nat) (offset r0 m : Nat) (ho : offset ≤ 8)
    (hr : r0 < 65536) (hv : ∀ j, v j ≤ 255)
    (hcool : ∀ j, j < m → ¬ v j ≤ baseline (refSeq v offset r0 j) offset) :
    (∀ j, j ≤ m → refSeq v offset r0 j = r0 + j) ∧
    (∀ j, j < m →
      baseline (refSeq v offset r0 j) offset
        ≤ baseline (refSeq v offset r0 (j + 1)) offset) := by
  have key : ∀ j, j ≤ m → refSeq v offset r0 j = r0 + j ∧ r0 + j < 65536 := by
    intro j
    induction j with
    | zero => intro _; exact ⟨rfl, by omega⟩
    | succ j ih =>
      intro hj
      obtain ⟨h1, h2⟩ := ih (by omega)
      have hc := hcool j (by omega)
      have hb : baseline (refSeq v offset r0 j) offset ≤ 254 := by
        have := hv j; omega
      have hle : refSeq v offset r0 j ≤ 65534 :=
        ref_lt_top_of_baseline _ _ ho (by omega) hb
      have hstep : refSeq v offset r0 (j + 1) = refSeq v offset r0 j + 1 := by
        simp only [refSeq, selfCalibrate, if_neg hc]
        omega
      exact ⟨by omega, by omega⟩
  refine ⟨fun j hj => (key j hj).1, ?_⟩
  intro j hj
  obtain ⟨h1, h2⟩ := key j (by omega)
  have hc := hcool j (by omega)
  have hb : baseline (refSeq v offset r0 j) offset ≤ 254 := by
    have := hv j; omega
  have hle : refSeq v offset r0 j ≤ 65534 :=
    ref_lt_top_of_baseline _ _ ho (by omega) hb
  have hstep : refSeq v offset r0 (j + 1) = refSeq v offset r0 j + 1 := by
    simp only [refSeq, selfCalibrate, if_neg hc]
    omega
  rw [hstep]
  exact baseline_succ_mono _ _ ho hb

theorem cooldown_run_witness :
    refSeq (fun _ => 20) 4 0 2 = 0 + 2 :=
  (cooldown_run (fun _ => 20) 4 0 2 (by norm_num) (by norm_num) (fun j => by norm_num)
    (by intro j hj; interval_cases j <;> decide)).1 2 le_rfl

/--
Claim C9: for every sequence of level readings the charge-counting loop of
digitalTouchRead executes at most 255 counter increments, and its result is
already final at fuel 256: adding any amount of fuel does not change it, so
the measurement is its own timeout and no call runs forever.
-/
theorem chargeLoop_bounded (input : Nat → Bool) :
    (chargeLoop input 256 1 1).2 ≤ 255 ∧
    digitalTouchRead input = ((chargeLoop input 256 1 1).1 + 255) % 256 ∧
    (∀ extra, chargeLoop input (256 + extra) 1 1 = chargeLoop input 256 1 1) := by
  refine ⟨?_, rfl, ?_⟩
  · have := chargeLoop_steps_le input 256 1 1 le_rfl (by norm_num)
    omega
  · intro extra
    exact chargeLoop_fuel_stable input (256 + extra) 256 1 1 le_rfl (by norm_num)
      (by omega) (by norm_num)

theorem chargeLoop_bounded_witness :
    (chargeLoop (fun _ => false) 256 1 1).2 ≤ 255 :=
  (chargeLoop_bounded (fun _ => false)).1

/--
Claim C10: whenever the touch decision of a cycle is true (with a
non-negative threshold), the sample is strictly above the baseline, so the
same cycle's reference update takes the cool-down branch
(reference + 1, no wraparound) and never the snap branch.
-/
theorem touched_cooldown (value ref offset threshold : Nat) (hv : value ≤ 255)
    (hr : ref < 65536) (ho : offset ≤ 8)
    (ht : touchDecision value ref offset threshold = true) :
    ¬ value ≤ baseline ref offset ∧
    (evaluate value ref offset threshold).2 = ref + 1 := by
  have hlt : baseline ref offset < value := by
    simp only [touchDecision, gt_iff_lt, decide_eq_true_eq] at ht
    omega
  have hb : baseline ref offset ≤ 254 := by omega
  have hle := ref_lt_top_of_baseline ref offset ho hr hb
  refine ⟨by omega, ?_⟩
  simp only [evaluate, selfCalibrate, if_neg (show ¬ value ≤ baseline ref offset by omega)]
  omega

theorem touched_cooldown_witness :
    (evaluate 30 160 4 4).2 = 160 + 1 :=
  (touched_cooldown 30 160 4 4 (by norm_num) (by norm_num) (by norm_num) (by decide)).2

end DigitalTouch
